import Mathlib

/-!
Verification development for the eventbase repository (src/src/index.ts and
src/src/manager.ts). The definitions below are a shallow embedding of the
TypeScript source: JavaScript Maps become insertion-ordered association
lists, awaited effect results become explicit parameters, thrown errors
become Except values, and the module-level sequenceWaiters map becomes an
explicit piece of process-global state threaded through the functions that
touch it.
-/

namespace Eventbase

/-- JSON-like flat payload: a document body as a list of field-value pairs. -/
abbrev Payload := List (String × String)

/-- A projected document. The source stores `db.upsert(event.id, { id: event.id, ...event.data })`,
so the stored object carries the key in its id field next to the payload fields. -/
structure Doc where
  id : String
  fields : Payload
  deriving DecidableEq, Repr

/-- Per-key metadata, exactly the MetaData interface of src/src/index.ts. -/
structure MetaData where
  dateCreated : String
  dateModified : String
  changes : Nat
  deriving DecidableEq, Repr

/-- Event type tag, the type field of the Event record in src/src/types.ts. -/
inductive EType where
  | put
  | del
  deriving DecidableEq, Repr

/-- The Event log record of src/src/types.ts: type, id, optional data, the
oldData field attached by the projector, and the producer timestamp. -/
structure Event where
  type : EType
  id : String
  data : Option Payload
  oldData : Option Doc
  timestamp : Nat
  deriving DecidableEq, Repr

/-- A consumed JetStream message: sequence, log-assigned time (msg.time.toISOString()),
and the parsed event payload. -/
structure Msg where
  seq : Nat
  time : String
  event : Event
  deriving DecidableEq, Repr

/-! ### Insertion-ordered map model

JavaScript Map iterates entries in key insertion order; set on an existing
key keeps its position, set on a fresh key appends, delete removes the
entry. The association-list operations below reproduce that behaviour. -/

/-- Read the value stored under a key (first entry with that key). -/
def lookupA {κ α : Type} [DecidableEq κ] : List (κ × α) → κ → Option α
  | [], _ => none
  | (k, v) :: rest, key => if k = key then some v else lookupA rest key

/-- Map.set: overwrite the first entry with the key in place, else append. -/
def upsertA {κ α : Type} [DecidableEq κ] : List (κ × α) → κ → α → List (κ × α)
  | [], key, v => [(key, v)]
  | (k, w) :: rest, key, v =>
      if k = key then (k, v) :: rest else (k, w) :: upsertA rest key v

/-- Map.delete: drop the entries with the key, keeping the rest in order. -/
def removeA {κ α : Type} [DecidableEq κ] : List (κ × α) → κ → List (κ × α)
  | [], _ => []
  | (k, w) :: rest, key =>
      if k = key then removeA rest key else (k, w) :: removeA rest key

/-! ### The module-level sequence waiter map

src/src/index.ts line 26 declares `const sequenceWaiters = new Map(...)` at
module scope: one map per process, shared by every base created by
createEventbase. A waiter records which base created it so that the
cross-base claims can be stated. -/

/-- A pending barrier waiter: the resolver pushed by waitForStream, tagged
with the base that performed the put or delete that created it. -/
structure Waiter where
  owner : String
  wid : Nat
  deriving DecidableEq, Repr

/-- The process-wide sequenceWaiters map: target sequence to resolver list,
in insertion order. -/
abbrev WaiterMap := List (Nat × List Waiter)

/-- Math.max over the map keys (used only on a nonempty map in the source). -/
def maxKey (m : WaiterMap) : Nat := (m.map Prod.fst).foldl max 0

/-- The registration loop of waitForStream: push the resolver onto the FIRST
entry whose key is at most seq and stop; if no such entry exists the
resolver is never stored anywhere. -/
def attachWaiter (seq : Nat) (w : Waiter) : WaiterMap → WaiterMap
  | [] => []
  | (k, ws) :: rest =>
      if k ≤ seq then (k, ws ++ [w]) :: rest
      else (k, ws) :: attachWaiter seq w rest

/-- waitForStream (src/src/index.ts lines 28-41): create a fresh empty bucket
at seq when the map is empty or every key is below seq, then run the
registration loop. -/
def waitForStream (seq : Nat) (w : Waiter) (m : WaiterMap) : WaiterMap :=
  let m1 := if m.isEmpty || maxKey m < seq then m ++ [(seq, [])] else m
  attachWaiter seq w m1

/-- The release loop run after an event with sequence seq is applied
(src/src/index.ts lines 296-303): from the front of the map, complete and
delete every bucket with key at most seq, stopping at the first larger key
(the for loop breaks there). Returns the completed waiters (each resolved
with the applied sequence) and the remaining map. -/
def releaseWaiters (seq : Nat) : WaiterMap → List Waiter × WaiterMap
  | [] => ([], [])
  | (k, ws) :: rest =>
      if k ≤ seq then
        let p := releaseWaiters seq rest
        (ws ++ p.1, p.2)
      else ([], (k, ws) :: rest)

/-! ### Subscription matching and fan-out -/

/-- Split a character list at the first star, returning the parts before and
after it, or none when there is no star. -/
def splitAtStar : List Char → Option (List Char × List Char)
  | [] => none
  | c :: cs =>
      if c = '*' then some ([], cs)
      else
        match splitAtStar cs with
        | none => none
        | some (p, q) => some (c :: p, q)

/-- keyMatchesFilter (src/src/index.ts lines 380-383): the source builds the
regex new RegExp(caret + filter.replace(star, dot-star) + dollar) and tests
the key. String.replace with a string pattern rewrites only the first star,
so the anchored regex is pre dot-star post. This model is faithful for
filters whose characters other than that first star are regex literals: no
star means exact equality, one star means pre is a prefix of the key and
post a suffix of the remainder. -/
def keyMatchesFilter (key filt : String) : Bool :=
  match splitAtStar filt.data with
  | none => key = filt
  | some (pre, post) =>
      pre.isPrefixOf key.data && post.isSuffixOf (key.data.drop pre.length)

/-- The registered subscriptions: filter string to callback list, in Map
insertion order. Callbacks are identified by numbers. -/
abbrev Subs := List (String × List Nat)

/-- One synchronous callback invocation performed by notifySubscribers,
recording the filter entry it came from and the four callback arguments. -/
structure Notification where
  pattern : String
  cb : Nat
  key : String
  data : Option Doc
  meta : Option MetaData
  event : Event
  deriving DecidableEq, Repr

/-- notifySubscribers (src/src/index.ts lines 358-378): for every filter
entry whose filter matches the key, invoke each of its callbacks with
(key, data?.data, data?.meta || null, event). The record argument is the
post-state record for a PUT and null for a DELETE. -/
def notifySubscribers (event : Event) (key : String)
    (data : Option (MetaData × Doc)) (subs : Subs) : List Notification :=
  subs.flatMap fun p =>
    if keyMatchesFilter key p.1 then
      p.2.map fun c =>
        { pattern := p.1, cb := c, key := key
          data := data.map (·.2), meta := data.map (·.1), event := event }
    else []

/-! ### The projector (replayEvents event application) -/

/-- The two local stores the projector writes: documents and metadata. -/
structure ProjState where
  db : List (String × Doc)
  metaDb : List (String × MetaData)
  deriving DecidableEq, Repr

/-- The empty local state a fresh base starts from. -/
def emptyState : ProjState := ⟨[], []⟩

/-- The document written for a PUT: { id: event.id, ...event.data }. A PUT
published by put always carries data; an absent data field spreads nothing. -/
def mkDoc (id : String) (data : Option Payload) : Doc :=
  ⟨id, data.getD []⟩

/-- updateMetaData (src/src/index.ts lines 332-356): a missing prior record
(or a not-found read) yields a fresh record with changes 1; otherwise the
modification time is replaced by the log time and changes is incremented. -/
def updateMetaData (time : String) (old : Option MetaData) : MetaData :=
  match old with
  | none => ⟨time, time, 1⟩
  | some m => ⟨m.dateCreated, time, m.changes + 1⟩

/-- The helper get (src/src/index.ts lines 385-394): null unless both the
document and the metadata are present. -/
def getRec (st : ProjState) (id : String) : Option (MetaData × Doc) :=
  match lookupA st.db id, lookupA st.metaDb id with
  | some d, some m => some (m, d)
  | _, _ => none

/-- Store mutation performed for one applied event (src/src/index.ts lines
279-293): PUT upserts the spread document and the updated metadata, DELETE
removes both. -/
def applyMsg (st : ProjState) (m : Msg) : ProjState :=
  match m.event.type with
  | EType.put =>
      { db := upsertA st.db m.event.id (mkDoc m.event.id m.event.data)
        metaDb := upsertA st.metaDb m.event.id
          (updateMetaData m.time (lookupA st.metaDb m.event.id)) }
  | EType.del =>
      { db := removeA st.db m.event.id
        metaDb := removeA st.metaDb m.event.id }

/-- One iteration of the replayEvents consume loop (src/src/index.ts lines
270-293), up to the waiter release and checkpoint write: read the prior
value, attach it as oldData, apply the mutation, and fan out to the
subscribers with the post-state record (PUT) or null (DELETE). -/
def processMsg (subs : Subs) (st : ProjState) (m : Msg) :
    ProjState × List Notification :=
  let old := lookupA st.db m.event.id
  let ev := { m.event with oldData := old }
  let st2 := applyMsg st { m with event := ev }
  match ev.type with
  | EType.put => (st2, notifySubscribers ev ev.id (getRec st2 ev.id) subs)
  | EType.del => (st2, notifySubscribers ev ev.id none subs)

/-- Replay of a list of log messages from the empty local state. -/
def replay (msgs : List Msg) : ProjState :=
  msgs.foldl applyMsg emptyState

/-- The events of the log that concern one key, in log order. -/
def keyEvents (k : String) (msgs : List Msg) : List Msg :=
  msgs.filter fun m => m.event.id = k

/-- Accumulate the current lineage of a key: a PUT extends it, a DELETE
resets it. -/
def lineStep (acc : List Msg) (m : Msg) : List Msg :=
  match m.event.type with
  | EType.put => acc ++ [m]
  | EType.del => []

/-- The PUT messages of the current lineage of a key: the PUTs applied since
the most recent DELETE (or since the beginning when no DELETE occurred). -/
def lineagePuts (evs : List Msg) : List Msg :=
  evs.foldl lineStep []

/-- The effect of one key event on the document slot of that key: a PUT
stores the spread document, a DELETE clears it (the prior value is
irrelevant either way). -/
def docStep (_acc : Option Doc) (m : Msg) : Option Doc :=
  match m.event.type with
  | EType.put => some (mkDoc m.event.id m.event.data)
  | EType.del => none

/-- The effect of one key event on the metadata slot of that key, exactly as
the projector performs it through updateMetaData and metaDb.remove. -/
def metaStep (acc : Option MetaData) (m : Msg) : Option MetaData :=
  match m.event.type with
  | EType.put => some (updateMetaData m.time acc)
  | EType.del => none

/-- The metadata value a lineage of PUT messages denotes: created at the
first PUT, modified at the last, with one change per PUT. -/
def lineageMetaOf : List Msg → Option MetaData
  | [] => none
  | x :: xs => some ⟨x.time, (xs.getLastD x).time, xs.length + 1⟩

/-- The waiter release performed when the projector of the named base
applies an event (the loop at src/src/index.ts lines 296-303). The loop
reads the module-level sequenceWaiters map directly, so the base running it
never enters the computation: every base releases from the same shared
map. -/
def projectorRelease (_base : String) (seq : Nat) (waiters : WaiterMap) :
    List Waiter × WaiterMap :=
  releaseWaiters seq waiters

/-! ### The base instance and its public operations

The instance object of createEventbase (src/src/index.ts lines 89-225).
Results of awaited external effects (the log publish, the projected read
after the barrier, the purge) enter ops as explicit parameters; a thrown
JavaScript error becomes an Except.error carrying its message. -/

/-- The mutable state captured by one base instance closure. -/
structure Instance where
  closed : Bool
  db : List (String × Doc)
  metaDb : List (String × MetaData)
  subscriptions : Subs
  activeSubscriptions : Nat
  lastAccessed : Nat
  deriving DecidableEq, Repr

/-- instance.get: closed guard, then read the document and, when present,
pair it with the metadata read (which the source does not null-check). -/
def instanceGet (i : Instance) (id : String) :
    Except String (Option (Option MetaData × Doc)) :=
  if i.closed then Except.error "instance is closed"
  else
    match lookupA i.db id with
    | none => Except.ok none
    | some d => Except.ok (some (lookupA i.metaDb id, d))

/-- The body of the module-level put (src/src/index.ts lines 396-438) after
the publish and barrier wait: read the projected record, fail with the
retrieval error when it is missing, then run the keep-latest purge, whose
await re-throws any purge failure before the result is returned. -/
def putPipeline (getResult : Option (MetaData × Doc))
    (purgeResult : Except String Unit) : Except String (MetaData × Doc) :=
  match getResult with
  | none => Except.error "Failed to retrieve data after put operation"
  | some r =>
      match purgeResult with
      | Except.error e => Except.error e
      | Except.ok _ => Except.ok r

/-- instance.put: closed guard, then the put pipeline on the awaited effect
results. -/
def instancePut (i : Instance) (_id : String) (_data : Payload)
    (getResult : Option (MetaData × Doc)) (purgeResult : Except String Unit) :
    Except String (MetaData × Doc) :=
  if i.closed then Except.error "instance is closed"
  else putPipeline getResult purgeResult

/-- instance.delete: closed guard, then publish, barrier wait and purge; the
result carries the purge count reported by the log. -/
def instanceDelete (i : Instance) (_id : String) (purged : Nat) :
    Except String Nat :=
  if i.closed then Except.error "instance is closed"
  else Except.ok purged

/-- instance.keys: closed guard, then filter the documents on the id field
with the pattern (the regex test is the external matchFn) and return ids. -/
def instanceKeys (i : Instance) (pattern : String)
    (matchFn : String → String → Bool) : Except String (List String) :=
  if i.closed then Except.error "instance is closed"
  else
    Except.ok
      ((((i.db.map Prod.snd).filter fun d => matchFn d.id pattern).map Doc.id))

/-- instance.query: closed guard, then delegate to the local store whose
answer is the queryResult parameter. -/
def instanceQuery (i : Instance) (_queryObject : List (String × String))
    (queryResult : List Doc) : Except String (List Doc) :=
  if i.closed then Except.error "instance is closed"
  else Except.ok queryResult

/-- instance.subscribe (src/src/index.ts lines 163-181): closed guard, then
create the filter entry when absent, push the callback, and increment the
active-subscriptions counter. -/
def instanceSubscribe (i : Instance) (filt : String) (cb : Nat) :
    Except String Instance :=
  if i.closed then Except.error "instance is closed"
  else
    let cbs :=
      match lookupA i.subscriptions filt with
      | none => [cb]
      | some l => l ++ [cb]
    Except.ok
      { i with
        subscriptions := upsertA i.subscriptions filt cbs
        activeSubscriptions := i.activeSubscriptions + 1 }

/-- Remove the first occurrence of a callback (indexOf then splice(idx, 1);
the list is unchanged when indexOf yields -1). -/
def removeOnce (cb : Nat) : List Nat → List Nat
  | [] => []
  | x :: xs => if x = cb then xs else x :: removeOnce cb xs

/-- The dispose handle returned by subscribe (src/src/index.ts lines
182-192). It reads subscriptions.get(filter) with a non-null assertion:
when the entry was already deleted the read yields undefined and the
indexOf call throws a TypeError, modelled as an error result that leaves
the state unchanged. Otherwise it splices out the callback, deletes the
entry when its list became empty, and decrements the counter clamped at
zero (Nat subtraction is that clamp). -/
def disposeHandle (filt : String) (cb : Nat) (i : Instance) :
    Except String Instance :=
  match lookupA i.subscriptions filt with
  | none => Except.error "TypeError"
  | some cbs =>
      let cbs2 := removeOnce cb cbs
      let subs2 :=
        if cbs2.isEmpty then removeA i.subscriptions filt
        else upsertA i.subscriptions filt cbs2
      Except.ok
        { i with
          subscriptions := subs2
          activeSubscriptions := i.activeSubscriptions - 1 }

/-- instance.close (src/src/index.ts lines 215-224): set the closed flag,
stop the stream, close the store and log handles (external effects), and
clear the subscription map. Nothing in close or in stream.stop touches the
module-level sequenceWaiters map, so the pending waiters are returned
unchanged. -/
def closeBase (i : Instance) (waiters : WaiterMap) : Instance × WaiterMap :=
  ({ i with closed := true, subscriptions := [] }, waiters)

/-! ### Startup protocol of replayEvents (src/src/index.ts lines 240-311) -/

/-- The digits-prefix fragment of parseInt(s, 10): the value of the leading
run of decimal digits, or none when the string starts with no digit (the
NaN case for the values this store ever holds, which are Nat.toString
images or absent). -/
def parseIntPrefix (s : String) : Option Nat :=
  let ds := s.data.takeWhile Char.isDigit
  if ds.isEmpty then none
  else some (ds.foldl (fun a c => a * 10 + (c.toNat - 48)) 0)

/-- Lines 248-253: read the checkpoint from the settings store; a missing
record or an unparseable value (parseInt yielding NaN) becomes 0. -/
def startupCheckpoint (stored : Option String) : Nat :=
  match stored with
  | none => 0
  | some v =>
      match parseIntPrefix v with
      | none => 0
      | some n => n

/-- Line 264: the consumer start sequence. -/
def consumerStartSeq (stored : Option String) : Nat :=
  startupCheckpoint stored + 1

/-- Lines 259-262: resolve the ready promise immediately when the stream is
empty or the checkpoint has already reached its last sequence. -/
def readyImmediately (checkpoint targetSeq : Nat) : Bool :=
  decide (targetSeq = 0) || decide (targetSeq ≤ checkpoint)

/-- Lines 308-311: after applying the event with sequence seq, resolve the
ready promise when seq has reached the target captured at startup
(resolving an already-resolved promise is a no-op). -/
def readyStep (targetSeq : Nat) (resolved : Bool) (seq : Nat) : Bool :=
  resolved || decide (targetSeq ≤ seq)

/-- Whether the ready promise is resolved after the consume loop has applied
the events with the given sequences, starting from the checkpoint read at
startup. -/
def readyAfter (stored : Option String) (targetSeq : Nat)
    (seqs : List Nat) : Bool :=
  seqs.foldl (readyStep targetSeq)
    (readyImmediately (startupCheckpoint stored) targetSeq)

/-! ### Manager cleanup (src/src/manager.ts lines 147-172)

The class-based EventbaseManager; its cleanup interval closes and evicts
idle bases. Close failures only log (the catch branch), so the model takes
the normal path in which close succeeds. -/

/-- The two per-instance observations the sweep reads. -/
structure ManagedBase where
  lastAccessed : Nat
  activeSubs : Nat
  deriving DecidableEq, Repr

/-- The eviction test of one pass: idleTime = now - lastAccessed must exceed
keepAliveSeconds * 1000 and the base must have no active subscriptions.
JavaScript compares a possibly negative idle time against a non-negative
bound, which truncated Nat subtraction reproduces. -/
def shouldEvict (now keepAliveSeconds : Nat) (b : ManagedBase) : Bool :=
  decide (keepAliveSeconds * 1000 < now - b.lastAccessed)
    && decide (b.activeSubs = 0)

/-- One timer pass over the instance map in iteration order: evicted bases
are closed, removed, and a stream:closed event is emitted with their name;
the others are kept. Returns the remaining map and the emitted names in
emission order. -/
def cleanupPass (now keepAliveSeconds : Nat) :
    List (String × ManagedBase) → List (String × ManagedBase) × List String
  | [] => ([], [])
  | (n, b) :: rest =>
      let p := cleanupPass now keepAliveSeconds rest
      if shouldEvict now keepAliveSeconds b then (p.1, n :: p.2)
      else ((n, b) :: p.1, p.2)

/-- A concrete six-event log: two PUTs and a DELETE on key "a", a PUT on
key "b", then two more PUTs on key "a"; the current lineage of "a" is the
two final PUTs. -/
def c4demoMsgs : List Msg :=
  [⟨1, "t1", ⟨EType.put, "a", some [("v", "1")], none, 0⟩⟩,
    ⟨2, "t2", ⟨EType.put, "a", some [("v", "2")], none, 0⟩⟩,
    ⟨3, "t3", ⟨EType.del, "a", none, none, 0⟩⟩,
    ⟨4, "t4", ⟨EType.put, "b", some [("v", "9")], none, 0⟩⟩,
    ⟨5, "t5", ⟨EType.put, "a", some [("v", "3")], none, 0⟩⟩,
    ⟨6, "t6", ⟨EType.put, "a", some [("v", "4")], none, 0⟩⟩]

/-- The last event of the demo log that concerns key "a". -/
def c4demoLast : Msg :=
  ⟨6, "t6", ⟨EType.put, "a", some [("v", "4")], none, 0⟩⟩

/-! ## Lemmas about the map model -/

theorem lookupA_upsertA_self {κ α : Type} [DecidableEq κ]
    (l : List (κ × α)) (k : κ) (v : α) : lookupA (upsertA l k v) k = some v := by
  induction l with
  | nil => simp [upsertA, lookupA]
  | cons hd tl ih =>
      obtain ⟨k0, v0⟩ := hd
      by_cases hk : k0 = k
      · simp [upsertA, hk, lookupA]
      · simp [upsertA, hk, lookupA, ih]

theorem lookupA_upsertA_ne {κ α : Type} [DecidableEq κ]
    (l : List (κ × α)) (k k2 : κ) (v : α) (h : k ≠ k2) :
    lookupA (upsertA l k v) k2 = lookupA l k2 := by
  induction l with
  | nil => simp [upsertA, lookupA, h]
  | cons hd tl ih =>
      obtain ⟨k0, v0⟩ := hd
      by_cases hk : k0 = k
      · subst hk
        simp [upsertA, lookupA, h]
      · simp [upsertA, hk, lookupA, ih]

theorem lookupA_removeA_self {κ α : Type} [DecidableEq κ]
    (l : List (κ × α)) (k : κ) : lookupA (removeA l k) k = none := by
  induction l with
  | nil => simp [removeA, lookupA]
  | cons hd tl ih =>
      obtain ⟨k0, v0⟩ := hd
      by_cases hk : k0 = k
      · simp [removeA, hk, ih]
      · simp [removeA, hk, lookupA, ih]

theorem lookupA_removeA_ne {κ α : Type} [DecidableEq κ]
    (l : List (κ × α)) (k k2 : κ) (h : k ≠ k2) :
    lookupA (removeA l k) k2 = lookupA l k2 := by
  induction l with
  | nil => simp [removeA, lookupA]
  | cons hd tl ih =>
      obtain ⟨k0, v0⟩ := hd
      by_cases hk : k0 = k
      · subst hk
        simp [removeA, lookupA, h, ih]
      · simp [removeA, hk, lookupA, ih]

theorem upsertA_lookupA_eq {κ α : Type} [DecidableEq κ]
    (l : List (κ × α)) (k : κ) (v : α) (h : lookupA l k = some v) :
    upsertA l k v = l := by
  induction l with
  | nil => simp [lookupA] at h
  | cons hd tl ih =>
      obtain ⟨k0, v0⟩ := hd
      by_cases hk : k0 = k
      · subst hk
        simp [lookupA] at h
        simp [upsertA, h]
      · simp [lookupA, hk] at h
        simp [upsertA, hk, ih h]

theorem removeOnce_not_mem (cb : Nat) (l : List Nat) (h : cb ∉ l) :
    removeOnce cb l = l := by
  induction l with
  | nil => rfl
  | cons x xs ih =>
      simp only [List.mem_cons, not_or] at h
      have hx : x ≠ cb := fun hq => h.1 hq.symm
      simp [removeOnce, hx, ih h.2]

/-! ## C2 — barrier wait semantics (code bug)

The claim (and the spec barrier contract) requires that a wait for target s
completes only when an event with sequence at least s has been applied.
waitForStream registers the resolver on the first pending bucket whose key
is at most the target, so a wait can share an older bucket with a smaller
key and be released early; and when every pending bucket key exceeds the
target while the maximum is at least the target, the resolver is never
registered at all and the wait can never complete. -/

/-- C2: with a wait for 2 pending, a new wait for 5 is attached to the
bucket keyed 2, so applying the event with sequence 3 completes the wait
whose target is 5 even though 3 < 5; and with only a bucket keyed 10
pending, a wait for 8 is registered nowhere, so no release can ever
complete it. -/
theorem c2_barrier_early_release :
    (⟨"A", 2⟩ : Waiter) ∈
        (releaseWaiters 3
          (waitForStream 5 ⟨"A", 2⟩ (waitForStream 2 ⟨"A", 1⟩ []))).1
      ∧ (3 : Nat) < 5
      ∧ waitForStream 8 ⟨"A", 3⟩ [(10, [⟨"A", 0⟩])] = [(10, [⟨"A", 0⟩])] := by
  refine ⟨by decide, by decide, rfl⟩

/-! ## C5 — close and pending barrier waiters (corrected) -/

/-- C5 counterexample: closing a base with a pending waiter leaves that
waiter in the pending map; close fails no waiter, so a pending waiter does
remain after close completes, contrary to the claim. -/
theorem c5_close_counterexample :
    (closeBase ⟨false, [], [], [], 0, 0⟩ [(5, [⟨"A", 0⟩])]).2
        = [(5, [⟨"A", 0⟩])]
      ∧ ([(5, [⟨"A", 0⟩])] : WaiterMap) ≠ [] := by
  exact ⟨rfl, by decide⟩

/-- C5 amended: close marks the instance closed and clears the subscription
registry, but it does not touch the module-level waiter map: every waiter
pending before close is still pending, unresolved and unfailed, after close
completes. -/
theorem c5_close_leaves_waiters (i : Instance) (w : WaiterMap) :
    (closeBase i w).2 = w
      ∧ (closeBase i w).1.closed = true
      ∧ (closeBase i w).1.subscriptions = [] :=
  ⟨rfl, rfl, rfl⟩

/-- C5 witness: closing a concrete base with one pending waiter keyed 5
leaves that waiter map unchanged. -/
theorem c5_close_leaves_waiters_witness :
    (closeBase ⟨false, [], [], [("f", [0])], 1, 0⟩ [(5, [⟨"A", 0⟩])]).2
        = [(5, [⟨"A", 0⟩])]
      ∧ (closeBase ⟨false, [], [], [("f", [0])], 1, 0⟩
          [(5, [⟨"A", 0⟩])]).1.closed = true :=
  ⟨(c5_close_leaves_waiters ⟨false, [], [], [("f", [0])], 1, 0⟩
      [(5, [⟨"A", 0⟩])]).1,
    (c5_close_leaves_waiters ⟨false, [], [], [("f", [0])], 1, 0⟩
      [(5, [⟨"A", 0⟩])]).2.1⟩

/-! ## C6 — closed guard on every public operation (confirmed) -/

/-- C6: after close has set the closed flag, every public operation (get,
put, delete, keys, query, subscribe) fails with the instance-is-closed
error, for every argument value. -/
theorem c6_closed_guard (i : Instance) (h : i.closed = true) :
    (∀ id, instanceGet i id = Except.error "instance is closed")
      ∧ (∀ id d g p, instancePut i id d g p
          = Except.error "instance is closed")
      ∧ (∀ id n, instanceDelete i id n = Except.error "instance is closed")
      ∧ (∀ pat f, instanceKeys i pat f = Except.error "instance is closed")
      ∧ (∀ q res, instanceQuery i q res = Except.error "instance is closed")
      ∧ (∀ filt cb, instanceSubscribe i filt cb
          = Except.error "instance is closed") := by
  refine ⟨?_, ?_, ?_, ?_, ?_, ?_⟩ <;> intros <;>
    simp [instanceGet, instancePut, instanceDelete, instanceKeys,
      instanceQuery, instanceSubscribe, h]

/-- C6 witness: the guard at a concrete closed instance and arguments. -/
theorem c6_closed_guard_witness :
    (⟨true, [], [], [], 0, 0⟩ : Instance).closed = true
      ∧ instanceGet ⟨true, [], [], [], 0, 0⟩ "user1"
          = Except.error "instance is closed"
      ∧ instanceSubscribe ⟨true, [], [], [], 0, 0⟩ "key*" 0
          = Except.error "instance is closed" := by
  have h := c6_closed_guard ⟨true, [], [], [], 0, 0⟩ rfl
  exact ⟨rfl, h.1 "user1", h.2.2.2.2.2 "key*" 0⟩

/-! ## C7 — keep-latest purge failure in put (corrected) -/

/-- C7 counterexample: when the purge step fails, put propagates the purge
error to the caller instead of returning the projected record; the awaited
purge rejection is not caught anywhere in put. -/
theorem c7_purge_counterexample :
    putPipeline
        (some (⟨"t0", "t0", 1⟩, ⟨"user1", [("name", "John")]⟩))
        (Except.error "purge failed")
      = Except.error "purge failed"
      ∧ (Except.error "purge failed"
          ≠ (Except.ok (⟨"t0", "t0", 1⟩, ⟨"user1", [("name", "John")]⟩) :
              Except String (MetaData × Doc))) :=
  ⟨rfl, fun h => Except.noConfusion h⟩

/-- C7 amended: the purge in put is not best-effort: with the projected
record present, put succeeds exactly when the purge succeeds, and a purge
failure is rethrown to the caller as the result of put. -/
theorem c7_purge_propagates (i : Instance) (h : i.closed = false)
    (id : String) (d : Payload) (r : MetaData × Doc) (e : String) :
    instancePut i id d (some r) (Except.error e) = Except.error e
      ∧ instancePut i id d (some r) (Except.ok ()) = Except.ok r := by
  constructor <;> simp [instancePut, putPipeline, h]

/-- C7 witness: the amended behaviour at concrete inputs. -/
theorem c7_purge_propagates_witness :
    (⟨false, [], [], [], 0, 0⟩ : Instance).closed = false
      ∧ instancePut ⟨false, [], [], [], 0, 0⟩ "user1" []
          (some (⟨"t0", "t0", 1⟩, ⟨"user1", []⟩)) (Except.error "purge failed")
          = Except.error "purge failed" := by
  have h := c7_purge_propagates ⟨false, [], [], [], 0, 0⟩ rfl "user1" []
    (⟨"t0", "t0", 1⟩, ⟨"user1", []⟩) "purge failed"
  exact ⟨rfl, h.1⟩

/-! ## C8 — barrier scoping across bases (corrected) -/

/-- C8 counterexample: with a wait created by an operation on base B pending
at target 2, the release run by the projector of base A applying sequence 3
completes exactly that waiter of B. -/
theorem c8_cross_base_counterexample :
    (projectorRelease "A" 3 [(2, [⟨"B", 0⟩])]).1 = [⟨"B", 0⟩]
      ∧ (⟨"B", 0⟩ : Waiter).owner ≠ "A" := by
  exact ⟨rfl, by decide⟩

/-- C8 amended: the waiter map is process-wide, not instance-scoped: the
release is the same function of the shared map no matter which base runs
it, and a waiter in a front bucket whose key the applied sequence reaches
is completed regardless of which base created it. -/
theorem c8_barrier_process_wide (a : String) (seq k : Nat)
    (l : List Waiter) (rest : WaiterMap) (w : Waiter)
    (hw : w ∈ l) (hk : k ≤ seq) :
    (∀ a2, projectorRelease a seq ((k, l) :: rest)
        = projectorRelease a2 seq ((k, l) :: rest))
      ∧ w ∈ (projectorRelease a seq ((k, l) :: rest)).1 := by
  constructor
  · intro a2
    rfl
  · simp [projectorRelease, releaseWaiters, hk, hw]

/-- C8 witness: base A releasing a waiter created by base B. -/
theorem c8_barrier_process_wide_witness :
    (⟨"B", 0⟩ : Waiter) ∈ [(⟨"B", 0⟩ : Waiter)] ∧ (2 : Nat) ≤ 3
      ∧ (⟨"B", 0⟩ : Waiter) ∈ (projectorRelease "A" 3 [(2, [⟨"B", 0⟩])]).1 := by
  refine ⟨by decide, by decide, ?_⟩
  exact (c8_barrier_process_wide "A" 3 2 [⟨"B", 0⟩] [] ⟨"B", 0⟩
    (by decide) (by decide)).2

/-! ## C10 — double disposal of a subscription handle (corrected) -/

/-- C10 counterexample: register two subscriptions under distinct filters
and dispose the first handle twice. The first disposal removes the filter
entry, so the second invocation reads undefined from the map and throws; it
does not decrement the counter, which stays at 1, not 0, while the other
subscription remains registered. -/
theorem c10_double_dispose_counterexample :
    (do
        let a ← instanceSubscribe ⟨false, [], [], [], 0, 0⟩ "f1" 0
        let b ← instanceSubscribe a "f2" 1
        disposeHandle "f1" 0 b)
      = Except.ok (⟨false, [], [], [("f2", [1])], 1, 0⟩ : Instance)
      ∧ disposeHandle "f1" 0 ⟨false, [], [], [("f2", [1])], 1, 0⟩
          = Except.error "TypeError"
      ∧ (⟨false, [], [], [("f2", [1])], 1, 0⟩ : Instance).activeSubscriptions
          = 1 :=
  ⟨rfl, rfl, rfl⟩

/-- C10 amended: a repeat invocation of a dispose handle leaves the callback
lists unchanged and still decrements the counter (clamped at zero) only
when the filter still has a callback-list entry, as when another
subscription shares the filter; when the first disposal removed the entry,
a repeat invocation throws a TypeError and changes nothing. -/
theorem c10_dispose_repeat (i : Instance) (filt : String) (cb : Nat) :
    (∀ cbs, lookupA i.subscriptions filt = some cbs → cb ∉ cbs → cbs ≠ [] →
        disposeHandle filt cb i
          = Except.ok
              { i with activeSubscriptions := i.activeSubscriptions - 1 })
      ∧ (lookupA i.subscriptions filt = none →
          disposeHandle filt cb i = Except.error "TypeError") := by
  constructor
  · intro cbs hl hc hne
    have hrm : removeOnce cb cbs = cbs := removeOnce_not_mem cb cbs hc
    have hup : upsertA i.subscriptions filt cbs = i.subscriptions :=
      upsertA_lookupA_eq i.subscriptions filt cbs hl
    simp [disposeHandle, hl, hrm, hne, hup]
  · intro hl
    simp [disposeHandle, hl]

/-- C10 witness: two subscriptions share one filter; after the first
disposal the second invocation of the same handle leaves the surviving
callback registered and drops the counter from 1 to 0. -/
theorem c10_dispose_repeat_witness :
    lookupA ([("f", [1])] : Subs) "f" = some [1] ∧ (0 : Nat) ∉ [1]
      ∧ ([1] : List Nat) ≠ []
      ∧ disposeHandle "f" 0 ⟨false, [], [], [("f", [1])], 1, 0⟩
          = Except.ok ⟨false, [], [], [("f", [1])], 0, 0⟩ := by
  refine ⟨by decide, by decide, by decide, ?_⟩
  exact (c10_dispose_repeat ⟨false, [], [], [("f", [1])], 1, 0⟩ "f" 0).1
    [1] (by decide) (by decide) (by decide)

/-! ## C3 — projector startup protocol (confirmed) -/

/-- Bool foldl of the ready step is resolved exactly when it starts resolved
or some consumed sequence reaches the target. -/
theorem readyStep_foldl (t : Nat) (seqs : List Nat) (b : Bool) :
    seqs.foldl (readyStep t) b = (b || seqs.any fun s => decide (t ≤ s)) := by
  induction seqs generalizing b with
  | nil => simp
  | cons s rest ih => simp [readyStep, ih, Bool.or_assoc]

/-- C3: on startup the checkpoint read treats a missing record or an
unparseable value as 0, the consumer starts at checkpoint + 1, and the
ready signal fires exactly when the stream was empty, the checkpoint had
already reached the last sequence, or the loop applies an event whose
sequence reaches the target captured at startup. -/
theorem c3_startup_protocol (stored : Option String) (targetSeq : Nat)
    (seqs : List Nat) :
    (stored = none → startupCheckpoint stored = 0)
      ∧ (∀ v, stored = some v → parseIntPrefix v = none →
          startupCheckpoint stored = 0)
      ∧ consumerStartSeq stored = startupCheckpoint stored + 1
      ∧ (readyAfter stored targetSeq seqs = true ↔
          targetSeq = 0 ∨ targetSeq ≤ startupCheckpoint stored
            ∨ ∃ s ∈ seqs, targetSeq ≤ s) := by
  refine ⟨?_, ?_, rfl, ?_⟩
  · intro h
    simp [startupCheckpoint, h]
  · intro v hv hp
    simp [startupCheckpoint, hv, hp]
  · simp [readyAfter, readyStep_foldl, readyImmediately, or_assoc]

/-- C3 witness: a stored checkpoint "7", target 9, and a consume loop that
reaches sequence 9 on its second message. -/
theorem c3_startup_protocol_witness :
    consumerStartSeq (some "7") = 8
      ∧ readyAfter (some "7") 9 [4, 9, 11] = true := by
  have h := c3_startup_protocol (some "7") 9 [4, 9, 11]
  constructor
  · have h1 := h.2.2.1
    have h2 : startupCheckpoint (some "7") = 7 := by decide
    rw [h2] at h1
    exact h1
  · exact h.2.2.2.mpr (Or.inr (Or.inr ⟨9, by decide, by decide⟩))

/-! ## C9 — manager idle eviction (confirmed) -/

theorem shouldEvict_iff (now kas : Nat) (b : ManagedBase) :
    shouldEvict now kas b = true ↔
      kas * 1000 < now - b.lastAccessed ∧ b.activeSubs = 0 := by
  simp [shouldEvict]

theorem mem_cleanupPass_remaining (now kas : Nat)
    (l : List (String × ManagedBase)) (x : String × ManagedBase)
    (h : x ∈ (cleanupPass now kas l).1) : x ∈ l := by
  induction l with
  | nil => simp [cleanupPass] at h
  | cons hd tl ih =>
      obtain ⟨m, c⟩ := hd
      by_cases he : shouldEvict now kas c = true
      · simp only [cleanupPass, he, if_true] at h
        exact List.mem_cons_of_mem _ (ih h)
      · simp only [cleanupPass, he, if_false] at h
        rcases List.mem_cons.mp h with h1 | h2
        · exact h1 ▸ List.mem_cons_self _ _
        · exact List.mem_cons_of_mem _ (ih h2)

theorem mem_cleanupPass_emitted (now kas : Nat)
    (l : List (String × ManagedBase)) (n : String)
    (h : n ∈ (cleanupPass now kas l).2) : n ∈ l.map Prod.fst := by
  induction l with
  | nil => simp [cleanupPass] at h
  | cons hd tl ih =>
      obtain ⟨m, c⟩ := hd
      by_cases he : shouldEvict now kas c = true
      · simp only [cleanupPass, he, if_true] at h
        rcases List.mem_cons.mp h with h1 | h2
        · simp [h1]
        · simp [ih h2]
      · simp only [cleanupPass, he, if_false] at h
        simp [ih h]

theorem cleanupPass_mem_iff (now kas : Nat)
    (l : List (String × ManagedBase)) (n : String) (b : ManagedBase)
    (hnd : (l.map Prod.fst).Nodup) (hmem : (n, b) ∈ l) :
    (n ∈ (cleanupPass now kas l).2 ↔ shouldEvict now kas b = true)
      ∧ ((n, b) ∈ (cleanupPass now kas l).1 ↔
          ¬shouldEvict now kas b = true) := by
  induction l with
  | nil => simp at hmem
  | cons hd tl ih =>
      obtain ⟨m, c⟩ := hd
      simp only [List.map_cons, List.nodup_cons] at hnd
      rcases List.mem_cons.mp hmem with h1 | h2
      · have hn : n = m := congrArg Prod.fst h1
        have hb : b = c := congrArg Prod.snd h1
        subst hn
        subst hb
        have hnot : ∀ x : String × ManagedBase, x ∈ tl → x.1 ≠ n := by
          intro x hx he
          exact hnd.1 (he ▸ List.mem_map_of_mem Prod.fst hx)
        by_cases he : shouldEvict now kas b = true
        · constructor
          · simp [cleanupPass, he]
          · simp only [cleanupPass, he, if_true]
            constructor
            · intro hin
              exact absurd rfl
                (hnot (n, b) (mem_cleanupPass_remaining now kas tl _ hin))
            · intro hin
              exact absurd trivial hin
        · constructor
          · simp only [cleanupPass, he, if_false]
            constructor
            · intro hin
              have := mem_cleanupPass_emitted now kas tl n hin
              rcases List.mem_map.mp this with ⟨x, hx, hfx⟩
              exact absurd hfx (hnot x hx)
            · intro hin
              simp at hin
          · simp [cleanupPass, he]
      · have hn2 : n ∈ tl.map Prod.fst := List.mem_map_of_mem Prod.fst h2
        have hne : n ≠ m := fun h => hnd.1 (h ▸ hn2)
        have hpair : (n, b) ≠ (m, c) := by
          intro h
          exact hne (congrArg Prod.fst h)
        have ihr := ih hnd.2 h2
        by_cases he : shouldEvict now kas c = true
        · constructor
          · simp only [cleanupPass, he, if_true, List.mem_cons]
            rw [← ihr.1]
            simp [hne]
          · simp only [cleanupPass, he, if_true]
            exact ihr.2
        · constructor
          · simp only [cleanupPass, he, if_false]
            exact ihr.1
          · simp only [cleanupPass, he, if_false, List.mem_cons]
            rw [← ihr.2]
            simp [hpair]

/-- C9: on a cleanup pass with the sweep time now, a base is evicted, and
its stream:closed event emitted, exactly when its idle time now minus
lastAccessed exceeds keepAliveSeconds * 1000 and it has zero active
subscriptions; in particular a base with a nonzero subscription count stays
in the map and emits nothing, however long it has been idle. -/
theorem c9_cleanup_eviction (now kas : Nat)
    (l : List (String × ManagedBase)) (n : String) (b : ManagedBase)
    (hnd : (l.map Prod.fst).Nodup) (hmem : (n, b) ∈ l) :
    (n ∈ (cleanupPass now kas l).2 ↔
        kas * 1000 < now - b.lastAccessed ∧ b.activeSubs = 0)
      ∧ ((n, b) ∈ (cleanupPass now kas l).1 ↔
          ¬(kas * 1000 < now - b.lastAccessed ∧ b.activeSubs = 0))
      ∧ (b.activeSubs ≠ 0 →
          (n, b) ∈ (cleanupPass now kas l).1
            ∧ n ∉ (cleanupPass now kas l).2) := by
  have h := cleanupPass_mem_iff now kas l n b hnd hmem
  have hiff := shouldEvict_iff now kas b
  refine ⟨?_, ?_, ?_⟩
  · rw [← hiff]
    exact h.1
  · rw [← hiff]
    exact h.2
  intro hsubs
  have hno : ¬shouldEvict now kas b = true := by
    rw [hiff]
    exact fun hq => hsubs hq.2
  exact ⟨h.2.mpr hno, fun hin => hno (h.1.mp hin)⟩

/-- C9 witness: three bases under a one-second keep-alive at sweep time
100000: an idle base with no subscribers is evicted and announced, an
equally idle base with one subscriber survives, and a recently accessed
base survives. -/
theorem c9_cleanup_eviction_witness :
    ([("a", ⟨0, 0⟩), ("b", ⟨0, 1⟩), ("c", ⟨99999, 0⟩)].map
        (Prod.fst (β := ManagedBase))).Nodup
      ∧ ("a", (⟨0, 0⟩ : ManagedBase))
          ∈ [("a", ⟨0, 0⟩), ("b", ⟨0, 1⟩), ("c", ⟨99999, 0⟩)]
      ∧ "a" ∈ (cleanupPass 100000 1
          [("a", ⟨0, 0⟩), ("b", ⟨0, 1⟩), ("c", ⟨99999, 0⟩)]).2
      ∧ ("b", (⟨0, 1⟩ : ManagedBase)) ∈ (cleanupPass 100000 1
          [("a", ⟨0, 0⟩), ("b", ⟨0, 1⟩), ("c", ⟨99999, 0⟩)]).1 := by
  refine ⟨by decide, by decide, ?_, ?_⟩
  · exact (c9_cleanup_eviction 100000 1
      [("a", ⟨0, 0⟩), ("b", ⟨0, 1⟩), ("c", ⟨99999, 0⟩)] "a" ⟨0, 0⟩
      (by decide) (by decide)).1.mpr (by decide)
  · exact ((c9_cleanup_eviction 100000 1
      [("a", ⟨0, 0⟩), ("b", ⟨0, 1⟩), ("c", ⟨99999, 0⟩)] "b" ⟨0, 1⟩
      (by decide) (by decide)).2.2 (by decide)).1

/-! ## C1 — subscriber fan-out semantics (corrected)

notifySubscribers filters by keyMatchesFilter on the event key for PUT and
DELETE alike: matching is over the key, not the post-state payload, and a
DELETE is not delivered unconditionally. -/

theorem notify_mem_iff (event : Event) (key : String)
    (data : Option (MetaData × Doc)) (subs : Subs) (f : String)
    (cbs : List Nat) (c : Nat) (hf : (f, cbs) ∈ subs) (hc : c ∈ cbs) :
    (∃ note ∈ notifySubscribers event key data subs,
        note.pattern = f ∧ note.cb = c)
      ↔ keyMatchesFilter key f = true := by
  constructor
  · rintro ⟨note, hmem, hpat, _⟩
    rw [notifySubscribers, List.mem_flatMap] at hmem
    obtain ⟨p, _, hnote⟩ := hmem
    by_cases hm : keyMatchesFilter key p.1 = true
    · rw [if_pos hm] at hnote
      obtain ⟨c0, _, hval⟩ := List.mem_map.mp hnote
      have hp1 : note.pattern = p.1 := by
        rw [← hval]
      rw [← hpat, hp1]
      exact hm
    · rw [if_neg hm] at hnote
      simp at hnote
  · intro hm
    refine ⟨⟨f, c, key, data.map (·.2), data.map (·.1), event⟩, ?_, rfl, rfl⟩
    rw [notifySubscribers, List.mem_flatMap]
    refine ⟨(f, cbs), hf, ?_⟩
    rw [if_pos hm]
    exact List.mem_map.mpr ⟨c, hc, rfl⟩

theorem notify_fields (event : Event) (key : String)
    (data : Option (MetaData × Doc)) (subs : Subs) :
    ∀ note ∈ notifySubscribers event key data subs,
      note.key = key ∧ note.event = event
        ∧ note.data = data.map (·.2) ∧ note.meta = data.map (·.1) := by
  intro note hmem
  rw [notifySubscribers, List.mem_flatMap] at hmem
  obtain ⟨p, _, hnote⟩ := hmem
  by_cases hm : keyMatchesFilter key p.1 = true
  · rw [if_pos hm] at hnote
    obtain ⟨c0, _, hval⟩ := List.mem_map.mp hnote
    subst hval
    exact ⟨rfl, rfl, rfl, rfl⟩
  · rw [if_neg hm] at hnote
    simp at hnote

/-- C1 counterexample: a subscription is registered under filter "a" while
a DELETE for key "b" is applied; no callback fires, although the claim
says DELETE callbacks of every registered subscription fire
unconditionally. -/
theorem c1_delete_counterexample :
    (processMsg [("a", [0])]
        ⟨[("b", ⟨"b", [("x", "1")]⟩)], [("b", ⟨"t0", "t0", 1⟩)]⟩
        ⟨7, "t1", ⟨EType.del, "b", none, none, 5⟩⟩).2 = []
      ∧ ([("a", [0])] : Subs) ≠ [] :=
  ⟨rfl, by decide⟩

/-- C1 amended: for an applied PUT or DELETE alike, a callback registered
under filter F fires exactly when F, as the anchored pattern the source
builds from it, matches the event key; a PUT delivery carries the
post-state document and metadata, while a DELETE delivery carries null
data and null meta, the pre-state document travelling only on the oldData
field of the delivered event. -/
theorem c1_subscriber_fanout (subs : Subs) (st : ProjState) (m : Msg)
    (f : String) (cbs : List Nat) (c : Nat)
    (hf : (f, cbs) ∈ subs) (hc : c ∈ cbs) :
    ((∃ note ∈ (processMsg subs st m).2, note.pattern = f ∧ note.cb = c)
        ↔ keyMatchesFilter m.event.id f = true)
      ∧ (∀ note ∈ (processMsg subs st m).2,
          note.event.oldData = lookupA st.db m.event.id
            ∧ (m.event.type = EType.del →
                note.data = none ∧ note.meta = none)
            ∧ (m.event.type = EType.put →
                note.data = some (mkDoc m.event.id m.event.data)
                  ∧ note.meta = some (updateMetaData m.time
                      (lookupA st.metaDb m.event.id)))) := by
  obtain ⟨sq, tm, ev0⟩ := m
  obtain ⟨ty, eid, dat, od, ts⟩ := ev0
  cases ty with
  | put =>
      have hget :
          getRec (applyMsg st ⟨sq, tm, ⟨EType.put, eid, dat,
              lookupA st.db eid, ts⟩⟩) eid
            = some (updateMetaData tm (lookupA st.metaDb eid),
                mkDoc eid dat) := by
        simp [getRec, applyMsg, lookupA_upsertA_self]
      constructor
      · simp only [processMsg]
        exact notify_mem_iff _ eid _ subs f cbs c hf hc
      · intro note hmem
        simp only [processMsg] at hmem
        have hfl := notify_fields _ eid _ subs note hmem
        refine ⟨?_, ?_, ?_⟩
        · rw [hfl.2.1]
        · intro hcontra
          exact absurd hcontra (by simp)
        · intro _
          rw [hfl.2.2.1, hfl.2.2.2, hget]
          exact ⟨rfl, rfl⟩
  | del =>
      constructor
      · simp only [processMsg]
        exact notify_mem_iff _ eid _ subs f cbs c hf hc
      · intro note hmem
        simp only [processMsg] at hmem
        have hfl := notify_fields _ eid _ subs note hmem
        refine ⟨?_, ?_, ?_⟩
        · rw [hfl.2.1]
        · intro _
          rw [hfl.2.2.1, hfl.2.2.2]
          exact ⟨rfl, rfl⟩
        · intro hcontra
          exact absurd hcontra (by simp)

/-- C1 witness: a subscription on "test:" followed by a star fires for a
PUT on key "test:1". -/
theorem c1_subscriber_fanout_witness :
    (("test:*", [0]) ∈ ([("test:*", [0])] : Subs)) ∧ (0 : Nat) ∈ [0]
      ∧ ∃ note ∈ (processMsg [("test:*", [0])] emptyState
          ⟨1, "t1", ⟨EType.put, "test:1", some [("value", "1")], none,
            5⟩⟩).2,
          note.pattern = "test:*" ∧ note.cb = 0 := by
  refine ⟨by decide, by decide, ?_⟩
  exact (c1_subscriber_fanout [("test:*", [0])] emptyState
      ⟨1, "t1", ⟨EType.put, "test:1", some [("value", "1")], none, 5⟩⟩
      "test:*" [0] 0 (by decide) (by decide)).1.mpr (by decide)

/-! ## C4 — coupling of documents and metadata (confirmed) -/

theorem docStep_acc_irrelevant (x y : Option Doc) (m : Msg) :
    docStep x m = docStep y m := by
  cases h : m.event.type <;> simp [docStep, h]

theorem replay_lookup (msgs : List Msg) (st : ProjState) (k : String) :
    lookupA (msgs.foldl applyMsg st).db k
        = (keyEvents k msgs).foldl docStep (lookupA st.db k)
      ∧ lookupA (msgs.foldl applyMsg st).metaDb k
        = (keyEvents k msgs).foldl metaStep (lookupA st.metaDb k) := by
  induction msgs generalizing st with
  | nil => simp [keyEvents]
  | cons m rest ih =>
      by_cases hid : m.event.id = k
      · have hke : keyEvents k (m :: rest) = m :: keyEvents k rest := by
          simp [keyEvents, hid]
        cases hty : m.event.type with
        | put =>
            have hdb : lookupA (applyMsg st m).db k
                = some (mkDoc m.event.id m.event.data) := by
              simp only [applyMsg, hty]
              rw [← hid]
              exact lookupA_upsertA_self ..
            have hmeta : lookupA (applyMsg st m).metaDb k
                = some (updateMetaData m.time (lookupA st.metaDb k)) := by
              simp only [applyMsg, hty]
              rw [← hid]
              exact lookupA_upsertA_self ..
            have hrest := ih (applyMsg st m)
            constructor
            · rw [List.foldl_cons, hrest.1, hdb, hke, List.foldl_cons]
              congr 1
              simp [docStep, hty]
            · rw [List.foldl_cons, hrest.2, hmeta, hke, List.foldl_cons]
              congr 1
              rw [← hid]
              simp [metaStep, hty]
        | del =>
            have hdb : lookupA (applyMsg st m).db k = none := by
              simp only [applyMsg, hty]
              rw [← hid]
              exact lookupA_removeA_self ..
            have hmeta : lookupA (applyMsg st m).metaDb k = none := by
              simp only [applyMsg, hty]
              rw [← hid]
              exact lookupA_removeA_self ..
            have hrest := ih (applyMsg st m)
            constructor
            · rw [List.foldl_cons, hrest.1, hdb, hke, List.foldl_cons]
              congr 1
              simp [docStep, hty]
            · rw [List.foldl_cons, hrest.2, hmeta, hke, List.foldl_cons]
              congr 1
              simp [metaStep, hty]
      · have hke : keyEvents k (m :: rest) = keyEvents k rest := by
          simp [keyEvents, hid]
        cases hty : m.event.type with
        | put =>
            have hdb : lookupA (applyMsg st m).db k = lookupA st.db k := by
              simp only [applyMsg, hty]
              exact lookupA_upsertA_ne _ _ _ _ hid
            have hmeta : lookupA (applyMsg st m).metaDb k
                = lookupA st.metaDb k := by
              simp only [applyMsg, hty]
              exact lookupA_upsertA_ne _ _ _ _ hid
            have hrest := ih (applyMsg st m)
            exact ⟨by rw [List.foldl_cons, hrest.1, hdb, hke],
              by rw [List.foldl_cons, hrest.2, hmeta, hke]⟩
        | del =>
            have hdb : lookupA (applyMsg st m).db k = lookupA st.db k := by
              simp only [applyMsg, hty]
              exact lookupA_removeA_ne _ _ _ hid
            have hmeta : lookupA (applyMsg st m).metaDb k
                = lookupA st.metaDb k := by
              simp only [applyMsg, hty]
              exact lookupA_removeA_ne _ _ _ hid
            have hrest := ih (applyMsg st m)
            exact ⟨by rw [List.foldl_cons, hrest.1, hdb, hke],
              by rw [List.foldl_cons, hrest.2, hmeta, hke]⟩

theorem foldl_docStep_getLast (evs : List Msg) (init : Option Doc) (m : Msg)
    (h : evs.getLast? = some m) :
    evs.foldl docStep init = docStep none m := by
  induction evs generalizing init with
  | nil => simp at h
  | cons a rest ih =>
      cases rest with
      | nil =>
          have ha : a = m := by
            simpa [List.getLast?] using h
          subst ha
          simp only [List.foldl_cons, List.foldl_nil]
          exact docStep_acc_irrelevant ..
      | cons b tl =>
          rw [List.getLast?_cons_cons] at h
          simp only [List.foldl_cons]
          exact ih _ h

theorem foldl_metaStep_del (evs : List Msg) (init : Option MetaData)
    (m : Msg) (h : evs.getLast? = some m)
    (hty : m.event.type = EType.del) :
    evs.foldl metaStep init = none := by
  induction evs generalizing init with
  | nil => simp at h
  | cons a rest ih =>
      cases rest with
      | nil =>
          have ha : a = m := by
            simpa [List.getLast?] using h
          subst ha
          simp [metaStep, hty]
      | cons b tl =>
          rw [List.getLast?_cons_cons] at h
          simp only [List.foldl_cons]
          exact ih _ h

theorem foldl_metaStep_lineage (evs : List Msg) (lacc : List Msg) :
    evs.foldl metaStep (lineageMetaOf lacc)
      = lineageMetaOf (evs.foldl lineStep lacc) := by
  induction evs generalizing lacc with
  | nil => rfl
  | cons m rest ih =>
      have hstep : metaStep (lineageMetaOf lacc) m
          = lineageMetaOf (lineStep lacc m) := by
        cases hty : m.event.type
        case put =>
            cases lacc with
            | nil => simp [metaStep, lineStep, hty, lineageMetaOf,
                updateMetaData]
            | cons x xs =>
                simp [metaStep, lineStep, hty, lineageMetaOf,
                  updateMetaData, List.getLastD_concat]
        case del => simp [metaStep, lineStep, hty, lineageMetaOf]
      simp only [List.foldl_cons]
      rw [hstep]
      exact ih (lineStep lacc m)

theorem foldl_lineStep_getLast (evs : List Msg) (lacc : List Msg) (m : Msg)
    (h : evs.getLast? = some m) (hty : m.event.type = EType.put) :
    (evs.foldl lineStep lacc).getLast? = some m := by
  induction evs generalizing lacc with
  | nil => simp at h
  | cons a rest ih =>
      cases rest with
      | nil =>
          have ha : a = m := by
            simpa [List.getLast?] using h
          subst ha
          simp [lineStep, hty, List.getLast?_concat]
      | cons b tl =>
          rw [List.getLast?_cons_cons] at h
          simp only [List.foldl_cons]
          exact ih _ h

/-- C4: replaying any log prefix from the empty local state, for every key
whose last applied event is a PUT, the document store holds the spread
document of that PUT and the metadata store holds dateCreated from the
first PUT of the current lineage, dateModified from the most recent PUT,
and changes counting the PUTs applied since the lineage began; when the
last applied event for the key is a DELETE, both stores hold nothing for
that key. -/
theorem c4_projection_metadata (msgs : List Msg) (k : String) (m : Msg)
    (hlast : (keyEvents k msgs).getLast? = some m) :
    (m.event.type = EType.put →
        lookupA (replay msgs).db k = some (mkDoc m.event.id m.event.data)
          ∧ ∃ hd, (lineagePuts (keyEvents k msgs)).head? = some hd
              ∧ lookupA (replay msgs).metaDb k
                  = some ⟨hd.time, m.time,
                      (lineagePuts (keyEvents k msgs)).length⟩)
      ∧ (m.event.type = EType.del →
          lookupA (replay msgs).db k = none
            ∧ lookupA (replay msgs).metaDb k = none) := by
  have hloc := replay_lookup msgs emptyState k
  constructor
  · intro hput
    constructor
    · have hdb : lookupA (replay msgs).db k = docStep none m := by
        rw [replay, hloc.1]
        exact foldl_docStep_getLast _ _ m hlast
      rw [hdb]
      simp [docStep, hput]
    · have hmeta : lookupA (replay msgs).metaDb k
          = lineageMetaOf (lineagePuts (keyEvents k msgs)) := by
        rw [replay, hloc.2]
        have h0 : (lookupA emptyState.metaDb k : Option MetaData)
            = lineageMetaOf [] := rfl
        rw [h0, foldl_metaStep_lineage]
        rfl
      have hlin : (lineagePuts (keyEvents k msgs)).getLast? = some m :=
        foldl_lineStep_getLast _ [] m hlast hput
      cases hl : lineagePuts (keyEvents k msgs) with
      | nil =>
          rw [hl] at hlin
          simp at hlin
      | cons x xs =>
          refine ⟨x, by simp [hl], ?_⟩
          rw [hl] at hlin
          rw [List.getLast?_cons] at hlin
          have hm : xs.getLastD x = m := by
            rw [List.getLastD_eq_getLast?]
            exact Option.some.inj hlin
          have hm2 : xs.getLast?.getD x = m := Option.some.inj hlin
          rw [hmeta, hl]
          simp [lineageMetaOf, hm, hm2]
  · intro hdel
    constructor
    · have hdb : lookupA (replay msgs).db k = docStep none m := by
        rw [replay, hloc.1]
        exact foldl_docStep_getLast _ _ m hlast
      rw [hdb]
      simp [docStep, hdel]
    · rw [replay, hloc.2]
      exact foldl_metaStep_del _ _ m hlast hdel

/-- C4 witness: a log with two PUTs, a DELETE, and two more PUTs on key
"a", interleaved with a PUT on key "b": after replay, key "a" carries the
document of its last PUT and metadata created at the first PUT of the
post-DELETE lineage, modified at the last PUT, with changes 2. -/
theorem c4_projection_metadata_witness :
    (keyEvents "a" c4demoMsgs).getLast? = some c4demoLast
      ∧ (c4demoLast.event.type = EType.put →
          lookupA (replay c4demoMsgs).db "a"
              = some (mkDoc c4demoLast.event.id c4demoLast.event.data)
            ∧ ∃ hd, (lineagePuts (keyEvents "a" c4demoMsgs)).head? = some hd
                ∧ lookupA (replay c4demoMsgs).metaDb "a"
                    = some ⟨hd.time, c4demoLast.time,
                        (lineagePuts (keyEvents "a" c4demoMsgs)).length⟩)
      ∧ (c4demoLast.event.type = EType.del →
          lookupA (replay c4demoMsgs).db "a" = none
            ∧ lookupA (replay c4demoMsgs).metaDb "a" = none) := by
  refine ⟨by decide, ?_, ?_⟩
  · exact (c4_projection_metadata c4demoMsgs "a" c4demoLast (by decide)).1
  · exact (c4_projection_metadata c4demoMsgs "a" c4demoLast (by decide)).2

end Eventbase
